import Mathlib

/-!
Verification of the vplc diff-checker: a shallow embedding of the
Tokenizer class (Tokenizer.ipp), the Token value type, and the
diff_checker_base comparison engine (diff_checker_base.ipp), in the
character profile of diff_checker_char.cpp, together with the
tolerance-based equality predicate of diff_checker_real.cpp modelled
over the rationals.
-/

namespace VPLC

/-- Kinds of tokens, mirroring the C++ enum Token::Kind. -/
inductive Kind where
  | Valid
  | Space
  | Newline
  | EndOfFile
  | Invalid
  deriving DecidableEq, Repr

/-- Validity predicate val of diff_checker_char.cpp: printable ASCII. -/
def valChar (a : Char) : Bool := '!' ≤ a && a ≤ '~'

/-- Equality predicate eq of diff_checker_char.cpp: exact identity. -/
def eqChar (a b : Char) : Bool := a == b

/-- Tolerance-based equality predicate eq of diff_checker_real.cpp, the
long double arithmetic modelled exactly over the rationals: absolute
difference at most 1e-5, or the second operand within one percent of the
first, with sign-aware bounds. -/
def eqReal (a b : ℚ) : Bool :=
  if a - b ≤ 1 / 100000 ∧ b - a ≤ 1 / 100000 then true
  else if a ≥ 0 then decide (a * (99 / 100) ≤ b ∧ b ≤ a * (101 / 100))
  else decide (a * (101 / 100) ≤ b ∧ b ≤ a * (99 / 100))

/-- A token of the character profile: kind, value (meaningful only for
Kind.Valid; the C++ field is value-initialized otherwise), and the
1-based line and token-within-line positions. -/
structure Token where
  kind : Kind
  value : Char
  line : Nat
  token : Nat
  deriving DecidableEq, Repr

/-- The C++ constructor for a token whose kind is not Kind.Valid: the
value field is value-initialized (the null character for char). -/
def Token.ofKind (k : Kind) (line token : Nat) : Token :=
  ⟨k, Char.ofNat 0, line, token⟩

/-- The C++ constructor for a Kind.Valid token from a character. -/
def Token.ofValue (v : Char) (line token : Nat) : Token :=
  ⟨Kind.Valid, v, line, token⟩

/-- Token::lstr, the long printable rendering. -/
def Token.lstr (t : Token) : String :=
  match t.kind with
  | Kind.Valid => "'" ++ String.singleton t.value ++ "'"
  | Kind.Newline => "<newline>"
  | Kind.Space => "<space>"
  | Kind.EndOfFile => "<end>"
  | Kind.Invalid => "<invalid-format>"

/-- Token::sstr, the short rendering. -/
def Token.sstr (t : Token) : String :=
  match t.kind with
  | Kind.Valid => String.singleton t.value
  | Kind.Newline => "\n"
  | Kind.Space => " "
  | Kind.EndOfFile => "<end>"
  | Kind.Invalid => "<invalid-format>"

/-- Token::isEqual in the character profile: kinds must match, and for
Kind.Valid tokens the values must satisfy the equality predicate. -/
def Token.isEqual (t u : Token) : Bool :=
  if t.kind ≠ u.kind then false
  else if t.kind = Kind.Valid then eqChar t.value u.value
  else true

/-- State of a Tokenizer: the remaining characters of the stream, the
sticky validity flag, and the line and token counters for the next
token. -/
structure TokState where
  input : List Char
  isValid : Bool
  line : Nat
  token : Nat
  deriving DecidableEq, Repr

/-- Whitespace in the default C locale, as skipped by formatted stream
extraction. -/
def isStreamWs (c : Char) : Bool :=
  c == ' ' || c == '\t' || c == '\n' || c == Char.ofNat 11 ||
    c == Char.ofNat 12 || c == '\r'

/-- Formatted extraction of one char from the stream: skip whitespace,
then read one character; extraction fails if the stream runs out. -/
def extractChar (s : List Char) : Option (Char × List Char) :=
  match s.dropWhile isStreamWs with
  | [] => none
  | c :: rest => some (c, rest)

/-- Tokenizer::next in the character profile, mirroring the branch
structure of the C++ source: end of file, newline (with a trailing
newline swallowed), space (with a trailing space, or a space before a
newline, swallowed), and otherwise formatted extraction of one value
checked by the validity predicate. -/
def next (s : TokState) : Except String (Token × TokState) :=
  if s.isValid = false then
    Except.error "Tokenizer is not valid anymore."
  else
    match s.input with
    | [] =>
        Except.ok (Token.ofKind Kind.EndOfFile s.line s.token,
          { s with isValid := false })
    | '\n' :: rest =>
        match rest with
        | [] =>
            Except.ok (Token.ofKind Kind.EndOfFile s.line s.token,
              { s with input := [], isValid := false })
        | _ :: _ =>
            Except.ok (Token.ofKind Kind.Newline s.line s.token,
              { s with input := rest, line := s.line + 1, token := 1 })
    | ' ' :: rest =>
        match rest with
        | [] =>
            Except.ok (Token.ofKind Kind.EndOfFile s.line s.token,
              { s with input := [], isValid := false })
        | '\n' :: rest2 =>
            match rest2 with
            | [] =>
                Except.ok (Token.ofKind Kind.EndOfFile s.line s.token,
                  { s with input := [], isValid := false })
            | _ :: _ =>
                Except.ok (Token.ofKind Kind.Newline s.line s.token,
                  { s with input := rest2, line := s.line + 1, token := 1 })
        | _ :: _ =>
            Except.ok (Token.ofKind Kind.Space s.line s.token,
              { s with input := rest, token := s.token + 1 })
    | _ :: _ =>
        match extractChar s.input with
        | none =>
            Except.ok (Token.ofKind Kind.Invalid s.line s.token,
              { s with input := [], isValid := false })
        | some (v, rest) =>
            if valChar v then
              Except.ok (Token.ofValue v s.line s.token,
                { s with input := rest, token := s.token + 1 })
            else
              Except.ok (Token.ofKind Kind.Invalid s.line s.token,
                { s with input := rest, isValid := false })

/-- The sequence of tokens produced by repeated next calls, bounded by a
fuel value; production stops when the tokenizer refuses (it has become
invalid). -/
def tokens : Nat → TokState → List Token
  | 0, _ => []
  | fuel + 1, s =>
      match next s with
      | Except.error _ => []
      | Except.ok (t, s') => t :: tokens fuel s'

/-- A freshly constructed Tokenizer on a stream: valid, at line 1,
token 1. -/
def initState (input : List Char) : TokState := ⟨input, true, 1, 1⟩

/-- All tokens a tokenizer state can still produce; the fuel one more
than the number of remaining characters always suffices. -/
def tokensFrom (s : TokState) : List Token := tokens (s.input.length + 1) s

/-- The full token sequence of an input stream. -/
def tokenize (input : List Char) : List Token := tokensFrom (initState input)

/-- Result of one checker run: the process exit code, everything written
to standard output, and the lines written to standard error. -/
structure RunResult where
  exitCode : Nat
  stdout : String
  stderr : List String
  deriving DecidableEq, Repr

/-- The grade-0 line printed on a mismatch (diff_checker_base.ipp lines
91 to 113), for claimed token ct and ground-truth token gt. -/
def gradeLine (showDiff hidden : Bool) (ct gt : Token) : String :=
  if showDiff then
    if hidden then "0|Wrong output. (Mismatch intentionally hidden.)\n"
    else
      "0|Unexpected " ++ ct.lstr ++ " at line " ++ toString ct.line ++
        ", token " ++ toString ct.token ++ ", while expecting " ++
        gt.lstr ++ ".\n"
  else "0|Wrong output.\n"

/-- Result of the look-ahead echo loop: the last claimed token held, the
claimed tokenizer state, and the diagnostic buffer. -/
structure EchoRes where
  tok : Token
  st : TokState
  buf : String
  deriving Repr

/-- The look-ahead loop of the mismatch branch (diff_checker_base.ipp
lines 125 to 137): pull up to the given number of further claimed
tokens, stopping once the token at hand is EndOfFile or Invalid,
appending each pulled token's short form to the buffer. -/
def echoLoop : Nat → Token → TokState → String → EchoRes
  | 0, t, cl, buf => ⟨t, cl, buf⟩
  | n + 1, t, cl, buf =>
      if t.kind = Kind.EndOfFile ∨ t.kind = Kind.Invalid then ⟨t, cl, buf⟩
      else
        match next cl with
        | Except.ok (t', cl') => echoLoop n t' cl' (buf ++ t'.sstr)
        | Except.error _ => ⟨t, cl, buf⟩

/-- The truncation marker appended after the echo loop
(diff_checker_base.ipp lines 139 to 146), chosen by the kind of the last
claimed token held. -/
def marker (t : Token) : String :=
  if t.kind = Kind.Invalid then "..?.."
  else if t.kind ≠ Kind.EndOfFile then "....."
  else ""

/-- The output-echo part of the mismatch branch (diff_checker_base.ipp
lines 115 to 155), starting from the mismatching claimed token ct and
the claimed tokenizer state after it was pulled. -/
def echoOutput (lookAhead : Nat) (hidden : Bool) (ct : Token)
    (cl : TokState) (buf : String) : String :=
  if hidden then "(Your output is intentionally hidden.)\n"
  else
    "Your output (as parsed):\n" ++
      (echoLoop lookAhead ct cl buf).buf ++
      marker (echoLoop lookAhead ct cl buf).tok ++ "\n"

/-- Everything the mismatch branch writes to standard output. -/
def mismatchOutput (lookAhead : Nat) (showDiff showOutput hidden : Bool)
    (ct gt : Token) (cl : TokState) (buf : String) : String :=
  gradeLine showDiff hidden ct gt ++
    (if showOutput then echoOutput lookAhead hidden ct cl buf else "")

/-- The main comparison loop of diff_checker_base (lines 76 to 164):
pull one token from each tokenizer; fail the run if the ground-truth
token is Invalid; append the claimed token's short form to the buffer;
on unequal tokens emit the grade-0 output, on ground-truth EndOfFile
emit the grade-1 line, otherwise continue. The fuel only bounds the
recursion; one more than the number of remaining ground-truth
characters always suffices, and the checker is run with exactly that. -/
def checkLoop (lookAhead : Nat) (showDiff showOutput hidden : Bool) :
    Nat → TokState → TokState → String → Option RunResult
  | 0, _, _, _ => none
  | fuel + 1, cl, co, buf =>
      match next cl with
      | Except.error _ => none
      | Except.ok (ct, cl') =>
          match next co with
          | Except.error _ => none
          | Except.ok (gt, co') =>
              if gt.kind = Kind.Invalid then
                some ⟨1, "", ["Ground-truth file format is invalid."]⟩
              else if ¬ gt.isEqual ct then
                some ⟨0,
                  mismatchOutput lookAhead showDiff showOutput hidden
                    ct gt cl' (buf ++ ct.sstr), []⟩
              else if gt.kind = Kind.EndOfFile then
                some ⟨0, "1|Correct output.", []⟩
              else
                checkLoop lookAhead showDiff showOutput hidden fuel
                  cl' co' (buf ++ ct.sstr)

/-- The comparison engine on two opened streams: the part of
diff_checker_base after both files opened, on fresh tokenizers and an
empty diagnostic buffer. The fallback for exhausted fuel is proved
unreachable below. -/
def runCompare (lookAhead : Nat) (showDiff showOutput hidden : Bool)
    (claimed correct : List Char) : RunResult :=
  match checkLoop lookAhead showDiff showOutput hidden
      (correct.length + 1) (initState claimed) (initState correct) "" with
  | some r => r
  | none => ⟨2, "", []⟩

/-- The process environment a checker invocation sees: the argument
vector (argv, program name first) and the file system, a map from paths
to the contents of the openable files. -/
structure Env where
  args : List String
  files : String → Option String

/-- The full diff_checker_base program (lines 35 to 165): argument
checks, the two file openings, then the comparison loop. -/
def diff_checker_base (lookAhead : Nat) (showDiff showOutput : Bool)
    (env : Env) : RunResult :=
  if env.args.length < 5 then ⟨1, "", ["Invalid parameters."]⟩
  else
    let argv4 := env.args.getD 4 ""
    if argv4 ≠ "0" ∧ argv4 ≠ "1" then
      ⟨1, "", ["Invalid test-case-hidden parameter."]⟩
    else
      let hidden := argv4 == "1"
      match env.files (env.args.getD 2 "") with
      | none => ⟨0, "0|Error opening the output file.\n", []⟩
      | some claimedContent =>
          match env.files (env.args.getD 3 "") with
          | none => ⟨1, "", ["Error opening the ground-truth file."]⟩
          | some correctContent =>
              runCompare lookAhead showDiff showOutput hidden
                claimedContent.toList correctContent.toList

/-- Lock-step success condition, following the spec's words: every
claimed token pulled in lock-step equals the corresponding ground-truth
token, up to and including the ground-truth EndOfFile token. -/
def specLockstep : List Token → List Token → Bool
  | g :: gs, c :: cs =>
      if g.isEqual c then
        if g.kind = Kind.EndOfFile then true else specLockstep gs cs
      else false
  | _, _ => false

/-- The first unequal token pair pulled in lock-step, following the
spec's words; none when the ground-truth EndOfFile is reached with all
pairs equal, or when a stream runs out of tokens first. -/
def firstMismatch : List Token → List Token → Option (Token × Token)
  | g :: gs, c :: cs =>
      if g.isEqual c then
        if g.kind = Kind.EndOfFile then none else firstMismatch gs cs
      else some (g, c)
  | _, _ => none

/-- Whether the lock-step comparison reaches an Invalid ground-truth
token before any mismatch and before the ground-truth EndOfFile. -/
def gtInvalidReached : List Token → List Token → Bool
  | g :: gs, c :: cs =>
      if g.kind = Kind.Invalid then true
      else if ¬ g.isEqual c then false
      else if g.kind = Kind.EndOfFile then false
      else gtInvalidReached gs cs
  | _, _ => false

/-- Relation between two successive tokens of one stream: the line
number never decreases; a Newline token is followed by a token with
tokenIndex 1; a Valid or Space token is followed by a token on the same
line with a strictly larger tokenIndex. -/
def TokenStep (t u : Token) : Prop :=
  t.line ≤ u.line ∧
  (t.kind = Kind.Newline → u.token = 1) ∧
  ((t.kind = Kind.Valid ∨ t.kind = Kind.Space) →
    u.line = t.line ∧ t.token < u.token)

/-- The first count tokens produced from a state, together with the
state thereafter; production stops early if the tokenizer refuses. -/
def takeTokens : Nat → TokState → List Token × TokState
  | 0, s => ([], s)
  | n + 1, s =>
      match next s with
      | Except.error _ => ([], s)
      | Except.ok (t, s') =>
          let r := takeTokens n s'
          (t :: r.1, r.2)

theorem dropWhile_length_le (p : Char → Bool) (l : List Char) :
    (l.dropWhile p).length ≤ l.length := by
  induction l with
  | nil => simp
  | cons c l ih =>
      rw [List.dropWhile_cons]
      split
      · exact Nat.le_succ_of_le ih
      · exact Nat.le_refl _

theorem extractChar_length {l : List Char} {c : Char} {r : List Char}
    (h : extractChar l = some (c, r)) : r.length < l.length := by
  unfold extractChar at h
  split at h
  · exact absurd h (by simp)
  · rename_i c' r' heq
    have hle : (l.dropWhile isStreamWs).length ≤ l.length :=
      dropWhile_length_le isStreamWs l
    rw [heq] at hle
    simp only [Option.some.injEq, Prod.mk.injEq] at h
    obtain ⟨rfl, rfl⟩ := h
    simp only [List.length_cons] at hle
    omega

theorem next_of_invalid {s : TokState} (h : s.isValid = false) :
    next s = Except.error "Tokenizer is not valid anymore." := by
  unfold next
  simp [h]

theorem next_of_valid {s : TokState} (h : s.isValid = true) :
    ∃ t s', next s = Except.ok (t, s') := by
  unfold next
  rw [if_neg (by simp [h])]
  split
  · exact ⟨_, _, rfl⟩
  · split <;> exact ⟨_, _, rfl⟩
  · split
    · exact ⟨_, _, rfl⟩
    · split <;> exact ⟨_, _, rfl⟩
    · exact ⟨_, _, rfl⟩
  · split
    · exact ⟨_, _, rfl⟩
    · split <;> exact ⟨_, _, rfl⟩

/-- Everything the later proofs need about one successful production
step: the token carries the pre-state position; the post-state validity
flag falls exactly on EndOfFile and Invalid tokens; a Newline advances
the line and resets the token counter, a Valid or Space token keeps the
line and increments the counter; and a still-valid post-state has
strictly fewer characters left. -/
theorem next_ok_spec {s : TokState} {t : Token} {s' : TokState}
    (h : next s = Except.ok (t, s')) :
    s.isValid = true ∧ t.line = s.line ∧ t.token = s.token ∧
    (s'.isValid = true ↔ (t.kind ≠ Kind.EndOfFile ∧ t.kind ≠ Kind.Invalid)) ∧
    (t.kind = Kind.Newline → s'.line = s.line + 1 ∧ s'.token = 1) ∧
    ((t.kind = Kind.Valid ∨ t.kind = Kind.Space) →
      s'.line = s.line ∧ s'.token = s.token + 1) ∧
    (s'.isValid = true → s'.input.length < s.input.length) := by
  have hvt : s.isValid = true := by
    cases hb : s.isValid
    · rw [next_of_invalid hb] at h
      exact absurd h (by simp)
    · rfl
  unfold next at h
  rw [if_neg (by simp [hvt])] at h
  split at h
  · simp only [Except.ok.injEq, Prod.mk.injEq] at h
    obtain ⟨rfl, rfl⟩ := h
    simp [Token.ofKind, hvt]
  · split at h <;>
      · simp only [Except.ok.injEq, Prod.mk.injEq] at h
        obtain ⟨rfl, rfl⟩ := h
        simp_all [Token.ofKind, Nat.lt_succ_self]
        try omega
  · split at h
    · simp only [Except.ok.injEq, Prod.mk.injEq] at h
      obtain ⟨rfl, rfl⟩ := h
      simp_all [Token.ofKind, Nat.lt_succ_self]
      try omega
    · split at h <;>
        · simp only [Except.ok.injEq, Prod.mk.injEq] at h
          obtain ⟨rfl, rfl⟩ := h
          simp_all [Token.ofKind, Nat.lt_succ_self]
          try omega
    · simp only [Except.ok.injEq, Prod.mk.injEq] at h
      obtain ⟨rfl, rfl⟩ := h
      simp_all [Token.ofKind, Nat.lt_succ_self]
      try omega
  · split at h
    · simp only [Except.ok.injEq, Prod.mk.injEq] at h
      obtain ⟨rfl, rfl⟩ := h
      simp_all [Token.ofKind, hvt]
    · rename_i v rest hex
      have hlen := extractChar_length hex
      split at h <;>
        · simp only [Except.ok.injEq, Prod.mk.injEq] at h
          obtain ⟨rfl, rfl⟩ := h
          simp_all [Token.ofKind, Token.ofValue]
          try omega

theorem isEqual_kind {t u : Token} (h : t.isEqual u = true) :
    t.kind = u.kind := by
  unfold Token.isEqual at h
  by_cases hk : t.kind = u.kind
  · exact hk
  · simp [hk] at h

theorem tokens_of_invalid {s : TokState} (h : s.isValid = false) :
    ∀ fuel, tokens fuel s = [] := by
  intro fuel
  cases fuel with
  | zero => rfl
  | succ n =>
      unfold tokens
      rw [next_of_invalid h]

theorem tokens_fuel_eq :
    ∀ f1 f2 : Nat, ∀ s : TokState, s.input.length < f1 →
      s.input.length < f2 → tokens f1 s = tokens f2 s := by
  intro f1
  induction f1 with
  | zero => intro f2 s h1; exact absurd h1 (Nat.not_lt_zero _)
  | succ k ih =>
      intro f2 s h1 h2
      cases f2 with
      | zero => exact absurd h2 (Nat.not_lt_zero _)
      | succ m =>
          unfold tokens
          cases hnext : next s with
          | error e => rfl
          | ok p =>
              obtain ⟨t, s'⟩ := p
              show t :: tokens k s' = t :: tokens m s'
              cases hval : s'.isValid with
              | false => rw [tokens_of_invalid hval, tokens_of_invalid hval]
              | true =>
                  have hdec :=
                    (next_ok_spec hnext).2.2.2.2.2.2 hval
                  have hk : s'.input.length < k := by omega
                  have hm : s'.input.length < m := by omega
                  rw [ih m s' hk hm]

theorem tokensFrom_unfold {s : TokState} {t : Token} {s' : TokState}
    (h : next s = Except.ok (t, s')) :
    tokensFrom s = t :: tokensFrom s' := by
  unfold tokensFrom
  conv =>
    lhs
    unfold tokens
  rw [h]
  show t :: tokens s.input.length s' = t :: tokens (s'.input.length + 1) s'
  cases hval : s'.isValid with
  | false => rw [tokens_of_invalid hval, tokens_of_invalid hval]
  | true =>
      have hdec := (next_ok_spec h).2.2.2.2.2.2 hval
      rw [tokens_fuel_eq s.input.length (s'.input.length + 1) s' (by omega)
        (Nat.lt_succ_self _)]

theorem tokensFrom_of_invalid {s : TokState} (h : s.isValid = false) :
    tokensFrom s = [] :=
  tokens_of_invalid h _

theorem tokensFrom_ne_nil {s : TokState} (h : s.isValid = true) :
    tokensFrom s ≠ [] := by
  obtain ⟨t, s', hnext⟩ := next_of_valid h
  rw [tokensFrom_unfold hnext]
  exact List.cons_ne_nil _ _

theorem zero_prefix_ne_correct (u : String) :
    ("0|" ++ u : String) ≠ "1|Correct output." := by
  intro h
  have hd := congrArg String.data h
  rw [String.data_append] at hd
  have h0 : ("0|" : String).data = ['0', '|'] := rfl
  have h1 : ("1|Correct output." : String).data =
      '1' :: ("|Correct output." : String).data := rfl
  rw [h0, h1] at hd
  simp only [List.cons_append, List.nil_append, List.cons.injEq] at hd
  exact absurd hd.1 (by decide)

/-- Every grade-0 line begins with the grade-0 digit and the separator
bar. -/
theorem gradeLine_starts (sd hid : Bool) (ct gt : Token) :
    ∃ u, gradeLine sd hid ct gt = "0|" ++ u := by
  unfold gradeLine
  by_cases hsd : sd
  · by_cases hh : hid
    · rw [if_pos hsd, if_pos hh]
      exact ⟨"Wrong output. (Mismatch intentionally hidden.)\n", rfl⟩
    · rw [if_pos hsd, if_neg hh]
      refine ⟨"Unexpected " ++ ct.lstr ++ " at line " ++ toString ct.line ++
        ", token " ++ toString ct.token ++ ", while expecting " ++
        gt.lstr ++ ".\n", ?_⟩
      rw [show ("0|Unexpected " : String) = "0|" ++ "Unexpected " from rfl]
      simp only [String.append_assoc]
  · rw [if_neg hsd]
    exact ⟨"Wrong output.\n", rfl⟩

/-- Every output of the mismatch branch begins with the grade-0 digit
and the separator bar. -/
theorem mismatchOutput_starts (la : Nat) (sd so hid : Bool)
    (ct gt : Token) (cl : TokState) (buf : String) :
    ∃ u, mismatchOutput la sd so hid ct gt cl buf = "0|" ++ u := by
  obtain ⟨u, hu⟩ := gradeLine_starts sd hid ct gt
  refine ⟨u ++ (if so then echoOutput la hid ct cl buf else ""), ?_⟩
  unfold mismatchOutput
  rw [hu, String.append_assoc]

/-- One unfolding step of the comparison loop, given the two produced
tokens. -/
theorem checkLoop_step {la : Nat} {sd so hid : Bool} {k : Nat}
    {cl co : TokState} {buf : String} {ct gt : Token} {cl' co' : TokState}
    (hcl : next cl = Except.ok (ct, cl'))
    (hco : next co = Except.ok (gt, co')) :
    checkLoop la sd so hid (k + 1) cl co buf =
      (if gt.kind = Kind.Invalid then
        some ⟨1, "", ["Ground-truth file format is invalid."]⟩
      else if ¬ gt.isEqual ct then
        some ⟨0, mismatchOutput la sd so hid ct gt cl' (buf ++ ct.sstr), []⟩
      else if gt.kind = Kind.EndOfFile then
        some ⟨0, "1|Correct output.", []⟩
      else checkLoop la sd so hid k cl' co' (buf ++ ct.sstr)) := by
  conv =>
    lhs
    unfold checkLoop
  rw [hcl, hco]

/-- The behaviour of the comparison loop, characterized against the
spec-side descriptions of the two token sequences: the grade-1 line is
printed exactly on lock-step success; a first unequal pair with a
non-Invalid ground-truth token yields exit code 0 and a grade-0 line;
the exit code is nonzero exactly when an Invalid ground-truth token is
reached, in which case nothing is printed; and an exit code 0 always
comes with a grade line. -/
theorem checkLoop_spec (la : Nat) (sd so hid : Bool) :
    ∀ fuel : Nat, ∀ cl co : TokState, ∀ buf : String,
      cl.isValid = true → co.isValid = true → co.input.length < fuel →
      ∃ r : RunResult,
        checkLoop la sd so hid fuel cl co buf = some r ∧
        (r.stdout = "1|Correct output." ↔
          specLockstep (tokensFrom co) (tokensFrom cl) = true) ∧
        (∀ g c : Token,
          firstMismatch (tokensFrom co) (tokensFrom cl) = some (g, c) →
          g.kind ≠ Kind.Invalid →
          r.exitCode = 0 ∧ ∃ u, r.stdout = "0|" ++ u) ∧
        (r.exitCode ≠ 0 ↔
          gtInvalidReached (tokensFrom co) (tokensFrom cl) = true) ∧
        (r.exitCode ≠ 0 → r.stdout = "") ∧
        (r.exitCode = 0 →
          (∃ u, r.stdout = "0|" ++ u) ∨ r.stdout = "1|Correct output.") := by
  intro fuel
  induction fuel with
  | zero =>
      intro cl co buf hcl hco hlen
      exact absurd hlen (Nat.not_lt_zero _)
  | succ k ih =>
      intro cl co buf hcl hco hlen
      obtain ⟨ct, cl', hnextcl⟩ := next_of_valid hcl
      obtain ⟨gt, co', hnextco⟩ := next_of_valid hco
      rw [checkLoop_step hnextcl hnextco,
        tokensFrom_unfold hnextco, tokensFrom_unfold hnextcl]
      by_cases hinv : gt.kind = Kind.Invalid
      · rw [if_pos hinv]
        have hco'inv : co'.isValid = false := by
          cases hb : co'.isValid
          · rfl
          · have := ((next_ok_spec hnextco).2.2.2.1.mp hb).2
            exact absurd hinv this
        rw [tokensFrom_of_invalid hco'inv]
        refine ⟨_, rfl, ?_, ?_, ?_, ?_, ?_⟩
        · constructor
          · intro habs
            exact absurd habs (by decide)
          · intro hls
            simp only [specLockstep] at hls
            split at hls
            · simp only [if_neg (show ¬ gt.kind = Kind.EndOfFile by simp [hinv]),
                specLockstep] at hls
              exact absurd hls (by decide)
            · exact absurd hls (by decide)
        · intro g c hfm hgk
          simp only [firstMismatch] at hfm
          split at hfm
          · simp only [if_neg (show ¬ gt.kind = Kind.EndOfFile by simp [hinv]),
              firstMismatch] at hfm
            exact absurd hfm (by simp)
          · simp only [Option.some.injEq, Prod.mk.injEq] at hfm
            obtain ⟨rfl, rfl⟩ := hfm
            exact absurd hinv hgk
        · simp [gtInvalidReached, hinv]
        · intro _
          rfl
        · intro habs
          exact absurd habs (by decide)
      · rw [if_neg hinv]
        by_cases heq : gt.isEqual ct
        · rw [if_neg (by simp [heq])]
          by_cases heof : gt.kind = Kind.EndOfFile
          · rw [if_pos heof]
            refine ⟨_, rfl, ?_, ?_, ?_, ?_, ?_⟩
            · simp [specLockstep, heq, heof]
            · intro g c hfm hgk
              simp only [firstMismatch, if_pos heq, if_pos heof] at hfm
              exact absurd hfm (by simp)
            · simp [gtInvalidReached, hinv, heq, heof]
            · intro habs
              exact absurd rfl habs
            · intro _
              right
              rfl
          · rw [if_neg heof]
            have hkind := isEqual_kind heq
            have hcl' : cl'.isValid = true :=
              (next_ok_spec hnextcl).2.2.2.1.mpr
                ⟨by rw [← hkind]; exact heof, by rw [← hkind]; exact hinv⟩
            have hco' : co'.isValid = true :=
              (next_ok_spec hnextco).2.2.2.1.mpr ⟨heof, hinv⟩
            have hdec := (next_ok_spec hnextco).2.2.2.2.2.2 hco'
            have hlen' : co'.input.length < k := by omega
            obtain ⟨r, hr, hiff, hfm, hinviff, hempty, hgrade⟩ :=
              ih cl' co' (buf ++ ct.sstr) hcl' hco' hlen'
            refine ⟨r, hr, ?_, ?_, ?_, hempty, hgrade⟩
            · simp only [specLockstep, if_pos heq, if_neg heof]
              exact hiff
            · intro g c hfmx hgk
              simp only [firstMismatch, if_pos heq, if_neg heof] at hfmx
              exact hfm g c hfmx hgk
            · simp only [gtInvalidReached, if_neg hinv,
                if_neg (show ¬ ¬ gt.isEqual ct = true by simp [heq]),
                if_neg heof]
              exact hinviff
        · rw [if_pos (by simp [heq])]
          refine ⟨_, rfl, ?_, ?_, ?_, ?_, ?_⟩
          · constructor
            · intro habs
              obtain ⟨u, hu⟩ :=
                mismatchOutput_starts la sd so hid ct gt cl' (buf ++ ct.sstr)
              rw [hu] at habs
              exact absurd habs (zero_prefix_ne_correct u)
            · intro hls
              simp only [specLockstep, if_neg heq] at hls
              exact absurd hls (by decide)
          · intro g c hfm hgk
            simp only [firstMismatch, if_neg heq] at hfm
            simp only [Option.some.injEq, Prod.mk.injEq] at hfm
            obtain ⟨rfl, rfl⟩ := hfm
            exact ⟨rfl, mismatchOutput_starts _ _ _ _ _ _ _ _⟩
          · simp [gtInvalidReached, hinv, heq]
          · intro habs
            exact absurd rfl habs
          · intro _
            left
            exact mismatchOutput_starts la sd so hid ct gt cl' (buf ++ ct.sstr)

theorem foldl_append_shift (l : List String) :
    ∀ a b : String,
      List.foldl (fun r s => r ++ s) (a ++ b) l =
        a ++ List.foldl (fun r s => r ++ s) b l := by
  induction l with
  | nil => intro a b; rfl
  | cons s l ih =>
      intro a b
      simp only [List.foldl_cons]
      rw [String.append_assoc]
      exact ih a (b ++ s)

theorem join_cons (s : String) (l : List String) :
    String.join (s :: l) = s ++ String.join l := by
  unfold String.join
  simp only [List.foldl_cons]
  rw [String.empty_append, ← String.append_empty s,
    foldl_append_shift l s ""]
  rw [String.append_empty]

/-- The behaviour of one comparison run on two opened streams,
characterized through the spec-side descriptions of the two token
sequences. -/
theorem runCompare_props (la : Nat) (sd so hid : Bool)
    (claimed correct : List Char) :
    ((runCompare la sd so hid claimed correct).stdout =
        "1|Correct output." ↔
      specLockstep (tokenize correct) (tokenize claimed) = true) ∧
    (∀ g c : Token,
      firstMismatch (tokenize correct) (tokenize claimed) = some (g, c) →
      g.kind ≠ Kind.Invalid →
      (runCompare la sd so hid claimed correct).exitCode = 0 ∧
      ∃ u, (runCompare la sd so hid claimed correct).stdout = "0|" ++ u) ∧
    ((runCompare la sd so hid claimed correct).exitCode ≠ 0 ↔
      gtInvalidReached (tokenize correct) (tokenize claimed) = true) ∧
    ((runCompare la sd so hid claimed correct).exitCode ≠ 0 →
      (runCompare la sd so hid claimed correct).stdout = "") ∧
    ((runCompare la sd so hid claimed correct).exitCode = 0 →
      (∃ u, (runCompare la sd so hid claimed correct).stdout = "0|" ++ u) ∨
      (runCompare la sd so hid claimed correct).stdout =
        "1|Correct output.") := by
  obtain ⟨r, hr, hiff, hfm, hinviff, hempty, hgrade⟩ :=
    checkLoop_spec la sd so hid (correct.length + 1) (initState claimed)
      (initState correct) "" rfl rfl (Nat.lt_succ_self _)
  unfold runCompare
  rw [hr]
  exact ⟨hiff, hfm, hinviff, hempty, hgrade⟩

/-- The successive-token relation holds along any produced token list. -/
theorem tokens_chain (fuel : Nat) :
    ∀ s : TokState, List.Chain' TokenStep (tokens fuel s) := by
  induction fuel with
  | zero => intro s; exact List.chain'_nil
  | succ k ih =>
      intro s
      unfold tokens
      cases hnext : next s with
      | error e => exact List.chain'_nil
      | ok p =>
          obtain ⟨t, s'⟩ := p
          show List.Chain' TokenStep (t :: tokens k s')
          rw [List.chain'_cons']
          refine ⟨?_, ih s'⟩
          intro u hu
          cases k with
          | zero => simp [tokens] at hu
          | succ m =>
              unfold tokens at hu
              cases hnext' : next s' with
              | error e =>
                  rw [hnext'] at hu
                  simp at hu
              | ok p' =>
                  obtain ⟨t', s''⟩ := p'
                  rw [hnext'] at hu
                  simp only [List.head?_cons, Option.mem_def,
                    Option.some.injEq] at hu
                  subst hu
                  obtain ⟨hval, htl, htt, hiff, hnl, hvs, hdec⟩ :=
                    next_ok_spec hnext
                  obtain ⟨hval', htl', htt', _, _, _, _⟩ :=
                    next_ok_spec hnext'
                  obtain ⟨hne1, hne2⟩ := hiff.mp hval'
                  cases hk : t.kind with
                  | EndOfFile => exact absurd hk hne1
                  | Invalid => exact absurd hk hne2
                  | Newline =>
                      obtain ⟨hl1, ht1⟩ := hnl hk
                      refine ⟨?_, fun _ => ?_, fun hvsk => ?_⟩
                      · rw [htl, htl', hl1]
                        exact Nat.le_succ _
                      · rw [htt', ht1]
                      · rcases hvsk with hvsk | hvsk <;>
                          simp [hk] at hvsk
                  | Valid =>
                      obtain ⟨hl1, ht1⟩ := hvs (Or.inl hk)
                      refine ⟨?_, fun hnlk => ?_, fun _ => ?_⟩
                      · rw [htl, htl', hl1]
                      · simp [hk] at hnlk
                      · rw [htl, htl', hl1, htt, htt', ht1]
                        exact ⟨rfl, Nat.lt_succ_self _⟩
                  | Space =>
                      obtain ⟨hl1, ht1⟩ := hvs (Or.inr hk)
                      refine ⟨?_, fun hnlk => ?_, fun _ => ?_⟩
                      · rw [htl, htl', hl1]
                      · simp [hk] at hnlk
                      · rw [htl, htl', hl1, htt, htt', ht1]
                        exact ⟨rfl, Nat.lt_succ_self _⟩

/-- The look-ahead echo loop, characterized: the buffer grows by the
short forms of the pulled tokens; at most the given number of tokens is
pulled, all held tokens before the last are neither EndOfFile nor
Invalid, an early stop happens only on such a token, and the final state
is valid exactly when the final token is neither. -/
theorem echoLoop_spec (la : Nat) :
    ∀ (t : Token) (cl : TokState) (buf : String),
      (cl.isValid = true ↔
        (t.kind ≠ Kind.EndOfFile ∧ t.kind ≠ Kind.Invalid)) →
      ∃ pulled : List Token,
        (echoLoop la t cl buf).buf =
          buf ++ String.join (pulled.map Token.sstr) ∧
        pulled.length ≤ la ∧
        (echoLoop la t cl buf).tok = pulled.getLastD t ∧
        (∀ u ∈ (t :: pulled).dropLast,
          u.kind ≠ Kind.EndOfFile ∧ u.kind ≠ Kind.Invalid) ∧
        (pulled.length < la →
          (echoLoop la t cl buf).tok.kind = Kind.EndOfFile ∨
          (echoLoop la t cl buf).tok.kind = Kind.Invalid) ∧
        ((echoLoop la t cl buf).st.isValid = true ↔
          ((echoLoop la t cl buf).tok.kind ≠ Kind.EndOfFile ∧
            (echoLoop la t cl buf).tok.kind ≠ Kind.Invalid)) := by
  induction la with
  | zero =>
      intro t cl buf hcons
      refine ⟨[], ?_, Nat.le_refl _, rfl, ?_, ?_, hcons⟩
      · show buf = buf ++ String.join []
        rw [show String.join [] = "" from rfl, String.append_empty]
      · intro u hu
        simp at hu
      · intro h
        exact absurd h (Nat.lt_irrefl _)
  | succ n ih =>
      intro t cl buf hcons
      by_cases hterm : t.kind = Kind.EndOfFile ∨ t.kind = Kind.Invalid
      · have hstep : echoLoop (n + 1) t cl buf = ⟨t, cl, buf⟩ := by
          unfold echoLoop
          rw [if_pos hterm]
        rw [hstep]
        refine ⟨[], ?_, Nat.zero_le _, rfl, ?_, fun _ => hterm, hcons⟩
        · show buf = buf ++ String.join []
          rw [show String.join [] = "" from rfl, String.append_empty]
        · intro u hu
          simp at hu
      · have hne : t.kind ≠ Kind.EndOfFile ∧ t.kind ≠ Kind.Invalid := by
          push_neg at hterm
          exact hterm
        have hvalid : cl.isValid = true := hcons.mpr hne
        obtain ⟨t', cl', hnext'⟩ := next_of_valid hvalid
        have hstep : echoLoop (n + 1) t cl buf =
            echoLoop n t' cl' (buf ++ t'.sstr) := by
          conv =>
            lhs
            unfold echoLoop
          rw [if_neg hterm, hnext']
        have hcons' := (next_ok_spec hnext').2.2.2.1
        obtain ⟨pulled, hbuf, hlen, htok, hdrop, hearly, hconsr⟩ :=
          ih t' cl' (buf ++ t'.sstr) hcons'
        rw [hstep]
        refine ⟨t' :: pulled, ?_, Nat.succ_le_succ hlen, ?_, ?_, ?_, hconsr⟩
        · rw [hbuf, List.map_cons, join_cons, String.append_assoc]
        · rw [htok, List.getLastD_cons]
        · intro u hu
          rw [List.dropLast_cons₂] at hu
          rcases List.mem_cons.mp hu with hu | hu
          · rw [hu]
            exact hne
          · exact hdrop u hu
        · intro hlt
          exact hearly (Nat.lt_of_succ_lt_succ (by simpa using hlt))

theorem next_space_step (line tok : Nat) (c : Char) (rest : List Char)
    (hc : c ≠ '\n') :
    next ⟨' ' :: c :: rest, true, line, tok⟩ =
      Except.ok (Token.ofKind Kind.Space line tok,
        ⟨c :: rest, true, line, tok + 1⟩) := by
  unfold next
  rw [if_neg (by simp)]
  split
  · rename_i heq
    simp at heq
  · rename_i rest' heq
    simp at heq
  · rename_i rest' heq
    simp only [List.cons.injEq] at heq
    obtain ⟨-, heq⟩ := heq
    subst heq
    split
    · rename_i heq2
      simp at heq2
    · rename_i rest2 heq2
      simp only [List.cons.injEq] at heq2
      exact absurd heq2.1 hc
    · rfl
  · rename_i head tail hnl hsp heq
    simp only [List.cons.injEq] at heq
    first
      | exact absurd heq.1 hsp
      | exact absurd heq.1.symm hsp
/-- C1 (amended): for every pair of opened input streams and every
profile configuration, the comparison engine prints exactly the line
1|Correct output. if and only if every claimed token pulled in lock-step
equals the corresponding ground-truth token up to and including the
ground-truth EndOfFile token; and at the first unequal token pair whose
ground-truth token is not Invalid it exits with code 0 after emitting a
grade-0 line. -/
theorem grade_protocol_lockstep (la : Nat) (sd so hid : Bool)
    (claimed correct : List Char) :
    ((runCompare la sd so hid claimed correct).stdout =
        "1|Correct output." ↔
      specLockstep (tokenize correct) (tokenize claimed) = true) ∧
    (∀ g c : Token,
      firstMismatch (tokenize correct) (tokenize claimed) = some (g, c) →
      g.kind ≠ Kind.Invalid →
      (runCompare la sd so hid claimed correct).exitCode = 0 ∧
      ∃ u, (runCompare la sd so hid claimed correct).stdout = "0|" ++ u) :=
  ⟨(runCompare_props la sd so hid claimed correct).1,
    (runCompare_props la sd so hid claimed correct).2.1⟩

/-- C1 witness: equal streams produce exactly the grade-1 line. -/
theorem grade_protocol_lockstep_witness :
    (runCompare 10 true false false "1 2 3\n".toList
        "1 2 3\n".toList).stdout = "1|Correct output." :=
  (grade_protocol_lockstep 10 true false false "1 2 3\n".toList
    "1 2 3\n".toList).1.mpr (by decide)

/-- C1 counterexample: with claimed output a and a tab character as
ground truth, the first pulled token pair is unequal (the ground-truth
token is Invalid, the claimed token Valid), yet no grade-0 line is
emitted: standard output stays empty and the run exits with code 1. -/
theorem grade0_line_missing_on_invalid_ground_truth :
    firstMismatch (tokenize "\t".toList) (tokenize "a".toList) =
      some (Token.ofKind Kind.Invalid 1 1, Token.ofValue 'a' 1 1) ∧
    (runCompare 10 true false false "a".toList "\t".toList).stdout = "" ∧
    (runCompare 10 true false false "a".toList "\t".toList).exitCode
      = 1 :=
  ⟨by decide, by decide, by decide⟩

/-- C2 counterexample: scenario B actually reports token 5, not
token 3, because interior Space tokens advance the tokenIndex counter. -/
theorem mismatch_message_counterexample :
    (runCompare 10 true false false "1 2 4\n".toList
        "1 2 3\n".toList).stdout =
      "0|Unexpected '4' at line 1, token 5, while expecting '3'.\n" ∧
    "0|Unexpected '4' at line 1, token 5, while expecting '3'.\n" ≠
      "0|Unexpected '4' at line 1, token 3, while expecting '3'.\n" :=
  ⟨by decide, by decide⟩

/-- C2 (amended): with show-diff-detail on, output echo off and hidden
false, the run on claimed 1 2 4 against correct 1 2 3 prints exactly
the grade-0 line naming the claimed token 4 in long form at line 1,
token 5; in general the mismatch message names the claimed token in
long form with the claimed token's line and tokenIndex, then the
expected ground-truth token in long form. -/
theorem mismatch_message_token_index :
    (runCompare 10 true false false "1 2 4\n".toList
        "1 2 3\n".toList).stdout =
      "0|Unexpected '4' at line 1, token 5, while expecting '3'.\n" ∧
    (∀ ct gt : Token, gradeLine true false ct gt =
      "0|Unexpected " ++ ct.lstr ++ " at line " ++ toString ct.line ++
        ", token " ++ toString ct.token ++ ", while expecting " ++
        gt.lstr ++ ".\n") :=
  ⟨by decide, fun ct gt => rfl⟩

/-- C3 counterexample: the short form of an EndOfFile token is the
marker string, not the empty string, and likewise for Invalid. -/
theorem sstr_terminal_not_empty :
    (Token.ofKind Kind.EndOfFile 1 1).sstr = "<end>" ∧
    (Token.ofKind Kind.Invalid 1 1).sstr = "<invalid-format>" ∧
    ("<end>" : String) ≠ "" ∧ ("<invalid-format>" : String) ≠ "" :=
  ⟨rfl, rfl, by decide, by decide⟩

/-- C3 (amended): the short form returns the value's textual form for a
Valid token, a newline for Newline, a space for Space, and the printable
markers for EndOfFile and Invalid. -/
theorem sstr_rendering :
    (∀ (v : Char) (line tok : Nat),
      (Token.ofValue v line tok).sstr = String.singleton v) ∧
    (∀ line tok : Nat, (Token.ofKind Kind.Newline line tok).sstr = "\n") ∧
    (∀ line tok : Nat, (Token.ofKind Kind.Space line tok).sstr = " ") ∧
    (∀ line tok : Nat,
      (Token.ofKind Kind.EndOfFile line tok).sstr = "<end>") ∧
    (∀ line tok : Nat,
      (Token.ofKind Kind.Invalid line tok).sstr = "<invalid-format>") :=
  ⟨fun _ _ _ => rfl, fun _ _ => rfl, fun _ _ => rfl, fun _ _ => rfl,
    fun _ _ => rfl⟩

/-- C4: the stream of a, space, newline and the stream of a, newline
tokenize to identical sequences: a Valid token for a followed directly
by EndOfFile, with no Space and no Newline token emitted. -/
theorem whitespace_collapse_tail :
    tokenize "a \n".toList = tokenize "a\n".toList ∧
    tokenize "a \n".toList =
      [Token.ofValue 'a' 1 1, Token.ofKind Kind.EndOfFile 1 2] :=
  ⟨by decide, by decide⟩

/-- C5 counterexample: the tolerance-based predicate is not symmetric:
10000 accepts 9900.5 through the one-percent band taken relative to the
first operand, but 9900.5 does not accept 10000. -/
theorem eqReal_not_symmetric :
    eqReal 10000 (19801 / 2) = true ∧
    eqReal (19801 / 2) 10000 = false := by
  constructor
  · unfold eqReal
    rw [if_neg (by norm_num), if_pos (by norm_num), decide_eq_true_eq]
    norm_num
  · unfold eqReal
    rw [if_neg (by norm_num), if_pos (by norm_num)]
    simp only [decide_eq_false_iff_not]
    norm_num

/-- C5 (amended): the exact character predicate is reflexive and
symmetric, and the tolerance-based real predicate is reflexive; its
symmetry fails, as the counterexample shows. -/
theorem eq_predicates_reflexive :
    (∀ a : Char, eqChar a a = true) ∧
    (∀ a b : Char, eqChar a b = eqChar b a) ∧
    (∀ a : ℚ, eqReal a a = true) := by
  refine ⟨fun a => ?_, fun a b => ?_, fun a => ?_⟩
  · simp [eqChar]
  · unfold eqChar
    by_cases h : a = b
    · rw [h]
    · rw [beq_eq_false_iff_ne.mpr h, beq_eq_false_iff_ne.mpr (Ne.symm h)]
  · unfold eqReal
    rw [if_pos ⟨by rw [sub_self]; norm_num, by rw [sub_self]; norm_num⟩]

/-- C6: along the token sequence of any input stream, line numbers never
decrease, the token following a Newline token has tokenIndex 1, and the
token following a Valid or Space token stays on the same line with a
strictly larger tokenIndex. -/
theorem token_position_invariants (input : List Char) :
    List.Chain' TokenStep (tokenize input) :=
  tokens_chain _ _

/-- C7: the validity flag falls exactly on an EndOfFile or Invalid
token; once it is false every further production request raises the
contract-violation error, and production on a valid tokenizer never
raises it. -/
theorem tokenizer_sticky_invalid (s : TokState) :
    (s.isValid = false →
      next s = Except.error "Tokenizer is not valid anymore.") ∧
    (s.isValid = true → ∀ e, next s ≠ Except.error e) ∧
    (∀ t s', next s = Except.ok (t, s') →
      (s'.isValid = false ↔
        (t.kind = Kind.EndOfFile ∨ t.kind = Kind.Invalid))) := by
  refine ⟨next_of_invalid, ?_, ?_⟩
  · intro h e habs
    obtain ⟨t, s', hok⟩ := next_of_valid h
    rw [hok] at habs
    exact Except.noConfusion habs
  · intro t s' h
    have hiff := (next_ok_spec h).2.2.2.1
    constructor
    · intro hf
      by_contra hc
      push_neg at hc
      have := hiff.mpr ⟨hc.1, hc.2⟩
      rw [this] at hf
      exact Bool.noConfusion hf
    · intro hk
      cases hb : s'.isValid
      · rfl
      · obtain ⟨h1, h2⟩ := hiff.mp hb
        rcases hk with hk | hk
        · exact absurd hk h1
        · exact absurd hk h2

/-- C7 witness: a tokenizer whose flag is already false refuses with the
contract-violation error. -/
theorem tokenizer_sticky_invalid_witness :
    next ⟨['a'], false, 1, 1⟩ =
      Except.error "Tokenizer is not valid anymore." :=
  (tokenizer_sticky_invalid ⟨['a'], false, 1, 1⟩).1 rfl

/-- C8 (amended): the checks apply in program order. Fewer than four
positional arguments, or a bad hidden flag, exit nonzero printing
nothing; an unopenable claimed file is checked next and yields the
grade-0 error line with exit 0, regardless of the ground truth; only
then an unopenable ground-truth file exits nonzero printing nothing;
with both files open the exit code is nonzero exactly when the
lock-step comparison reaches an Invalid ground-truth token, nonzero
exits print nothing, and an exit 0 always comes with a grade line. -/
theorem exit_status_characterization (la : Nat) (sd so : Bool)
    (env : Env) :
    (env.args.length < 5 →
      diff_checker_base la sd so env =
        ⟨1, "", ["Invalid parameters."]⟩) ∧
    (5 ≤ env.args.length → env.args.getD 4 "" ≠ "0" →
      env.args.getD 4 "" ≠ "1" →
      diff_checker_base la sd so env =
        ⟨1, "", ["Invalid test-case-hidden parameter."]⟩) ∧
    (5 ≤ env.args.length →
      (env.args.getD 4 "" = "0" ∨ env.args.getD 4 "" = "1") →
      env.files (env.args.getD 2 "") = none →
      diff_checker_base la sd so env =
        ⟨0, "0|Error opening the output file.\n", []⟩) ∧
    (∀ claimedContent : String, 5 ≤ env.args.length →
      (env.args.getD 4 "" = "0" ∨ env.args.getD 4 "" = "1") →
      env.files (env.args.getD 2 "") = some claimedContent →
      env.files (env.args.getD 3 "") = none →
      diff_checker_base la sd so env =
        ⟨1, "", ["Error opening the ground-truth file."]⟩) ∧
    (∀ claimedContent correctContent : String, 5 ≤ env.args.length →
      (env.args.getD 4 "" = "0" ∨ env.args.getD 4 "" = "1") →
      env.files (env.args.getD 2 "") = some claimedContent →
      env.files (env.args.getD 3 "") = some correctContent →
      (((diff_checker_base la sd so env).exitCode ≠ 0 ↔
        gtInvalidReached (tokenize correctContent.toList)
          (tokenize claimedContent.toList) = true) ∧
      ((diff_checker_base la sd so env).exitCode ≠ 0 →
        (diff_checker_base la sd so env).stdout = "") ∧
      ((diff_checker_base la sd so env).exitCode = 0 →
        (∃ u, (diff_checker_base la sd so env).stdout = "0|" ++ u) ∨
        (diff_checker_base la sd so env).stdout =
          "1|Correct output."))) := by
  refine ⟨?_, ?_, ?_, ?_, ?_⟩
  · intro h
    unfold diff_checker_base
    rw [if_pos h]
  · intro h5 h0 h1
    simp only [diff_checker_base]
    rw [if_neg (Nat.not_lt.mpr h5), if_pos ⟨h0, h1⟩]
  · intro h5 hflag hnone
    simp only [diff_checker_base]
    rw [if_neg (Nat.not_lt.mpr h5),
      if_neg (fun hcon => by
        rcases hflag with h | h
        · exact hcon.1 h
        · exact hcon.2 h), hnone]
  · intro cc h5 hflag hcc hgc
    simp only [diff_checker_base]
    rw [if_neg (Nat.not_lt.mpr h5),
      if_neg (fun hcon => by
        rcases hflag with h | h
        · exact hcon.1 h
        · exact hcon.2 h), hcc, hgc]
  · intro cc gc h5 hflag hcc hgc
    have hrun : diff_checker_base la sd so env =
        runCompare la sd so (env.args.getD 4 "" == "1")
          cc.toList gc.toList := by
      simp only [diff_checker_base]
      rw [if_neg (Nat.not_lt.mpr h5),
        if_neg (fun hcon => by
        rcases hflag with h | h
        · exact hcon.1 h
        · exact hcon.2 h), hcc, hgc]
    rw [hrun]
    exact ⟨(runCompare_props _ _ _ _ _ _).2.2.1,
      (runCompare_props _ _ _ _ _ _).2.2.2.1,
      (runCompare_props _ _ _ _ _ _).2.2.2.2⟩

/-- C8 witness: an empty argument vector exits nonzero with the usage
diagnostic and nothing on standard output. -/
theorem exit_status_characterization_witness :
    diff_checker_base 10 true true (Env.mk [] (fun _ => none)) =
      ⟨1, "", ["Invalid parameters."]⟩ :=
  (exit_status_characterization 10 true true
    (Env.mk [] (fun _ => none))).1 (by decide)

/-- C8 counterexample: when both files are unopenable the run exits
with status 0 and prints the grade-0 error line, even though the
ground-truth file is unopenable — against the claim that an unopenable
ground-truth file exits nonzero with no grade line. -/
theorem exit_zero_with_unopenable_ground_truth :
    (Env.mk ["checker", "in", "out", "truth", "0"]
        (fun _ => none)).files "truth" = none ∧
    (diff_checker_base 10 true false
      (Env.mk ["checker", "in", "out", "truth", "0"]
        (fun _ => none))).exitCode = 0 ∧
    (diff_checker_base 10 true false
      (Env.mk ["checker", "in", "out", "truth", "0"]
        (fun _ => none))).stdout = "0|Error opening the output file.\n" :=
  ⟨rfl, rfl, rfl⟩

/-- C9: on a mismatch with show-output-echo on and hidden false, the
engine pulls at most lookAhead further claimed tokens, stopping early
once an EndOfFile or Invalid token is held, appends the short form of
each pulled token to the diagnostic buffer, and prints the buffer under
the parsed-output label followed by the marker: question marks when the
echo ended on an Invalid token, nothing when the claimed stream was
exactly exhausted (EndOfFile reached, tokenizer finished), and dots
when the claimed stream can still produce tokens beyond the look-ahead
window. -/
theorem echo_lookahead_spec (la : Nat) (t : Token) (cl : TokState)
    (buf : String)
    (hcons : cl.isValid = true ↔
      (t.kind ≠ Kind.EndOfFile ∧ t.kind ≠ Kind.Invalid)) :
    ∃ pulled : List Token,
      (echoLoop la t cl buf).buf =
        buf ++ String.join (pulled.map Token.sstr) ∧
      pulled.length ≤ la ∧
      (∀ u ∈ (t :: pulled).dropLast,
        u.kind ≠ Kind.EndOfFile ∧ u.kind ≠ Kind.Invalid) ∧
      (pulled.length < la →
        (echoLoop la t cl buf).tok.kind = Kind.EndOfFile ∨
        (echoLoop la t cl buf).tok.kind = Kind.Invalid) ∧
      ((echoLoop la t cl buf).tok.kind = Kind.Invalid →
        echoOutput la false t cl buf =
          "Your output (as parsed):\n" ++ (echoLoop la t cl buf).buf ++
            "..?.." ++ "\n") ∧
      ((echoLoop la t cl buf).tok.kind = Kind.EndOfFile →
        (echoLoop la t cl buf).st.isValid = false ∧
        echoOutput la false t cl buf =
          "Your output (as parsed):\n" ++ (echoLoop la t cl buf).buf ++
            "\n") ∧
      ((echoLoop la t cl buf).st.isValid = true →
        tokensFrom (echoLoop la t cl buf).st ≠ [] ∧
        echoOutput la false t cl buf =
          "Your output (as parsed):\n" ++ (echoLoop la t cl buf).buf ++
            "....." ++ "\n") := by
  obtain ⟨pulled, hbuf, hlen, htok, hdrop, hearly, hconsr⟩ :=
    echoLoop_spec la t cl buf hcons
  refine ⟨pulled, hbuf, hlen, hdrop, hearly, ?_, ?_, ?_⟩
  · intro hk
    unfold echoOutput
    rw [if_neg (by simp)]
    rw [show marker (echoLoop la t cl buf).tok = "..?.." from by
      unfold marker
      rw [if_pos hk]]
  · intro hk
    have hval : (echoLoop la t cl buf).st.isValid = false := by
      cases hb : (echoLoop la t cl buf).st.isValid
      · rfl
      · exact absurd hk (hconsr.mp hb).1
    refine ⟨hval, ?_⟩
    unfold echoOutput
    rw [if_neg (by simp)]
    rw [show marker (echoLoop la t cl buf).tok = "" from by
      unfold marker
      rw [if_neg (by simp [hk]), if_neg (by simp [hk])]]
    rw [String.append_empty]
  · intro hvalid
    obtain ⟨hne1, hne2⟩ := hconsr.mp hvalid
    refine ⟨tokensFrom_ne_nil hvalid, ?_⟩
    unfold echoOutput
    rw [if_neg (by simp)]
    rw [show marker (echoLoop la t cl buf).tok = "....." from by
      unfold marker
      rw [if_neg hne2, if_pos hne1]]

/-- C9 witness: with look-ahead 3 on a stream that still has content
after the window, the final state can produce more tokens. -/
theorem echo_lookahead_spec_witness :
    tokensFrom (echoLoop 3 (Token.ofValue 'x' 1 1)
      (initState "y z w".toList) "x").st ≠ [] := by
  obtain ⟨pulled, -, -, -, -, -, -, hvalid⟩ :=
    echo_lookahead_spec 3 (Token.ofValue 'x' 1 1)
      (initState "y z w".toList) "x" (by decide)
  exact (hvalid (by decide)).1

/-- C10: a space followed by a character other than a newline always
yields its own Space token, and k consecutive spaces before a character
that is neither a space nor a newline yield k separate Space tokens with
consecutive token indices. -/
theorem interior_spaces_not_collapsed :
    (∀ (line tok : Nat) (c : Char) (rest : List Char), c ≠ '\n' →
      next ⟨' ' :: c :: rest, true, line, tok⟩ =
        Except.ok (Token.ofKind Kind.Space line tok,
          ⟨c :: rest, true, line, tok + 1⟩)) ∧
    (∀ (k line tok : Nat) (c : Char) (rest : List Char),
      c ≠ '\n' → c ≠ ' ' →
      takeTokens k ⟨List.replicate k ' ' ++ c :: rest, true, line, tok⟩ =
        ((List.range k).map
            (fun i => Token.ofKind Kind.Space line (tok + i)),
          ⟨c :: rest, true, line, tok + k⟩)) := by
  refine ⟨fun line tok c rest hc => next_space_step line tok c rest hc, ?_⟩
  intro k
  induction k with
  | zero =>
      intro line tok c rest hc hs
      simp [takeTokens]
  | succ n ih =>
      intro line tok c rest hc hs
      obtain ⟨d, tail, htail, hd⟩ :
          ∃ d tail, List.replicate n ' ' ++ c :: rest = d :: tail ∧
            d ≠ '\n' := by
        cases n with
        | zero => exact ⟨c, rest, by simp, hc⟩
        | succ m =>
            exact ⟨' ', List.replicate m ' ' ++ c :: rest,
              by simp [List.replicate_succ], by decide⟩
      have hnext : next ⟨List.replicate (n + 1) ' ' ++ c :: rest,
          true, line, tok⟩ =
          Except.ok (Token.ofKind Kind.Space line tok,
            ⟨List.replicate n ' ' ++ c :: rest, true, line, tok + 1⟩) := by
        rw [List.replicate_succ, List.cons_append, htail]
        exact next_space_step line tok d tail hd
      have hstep : takeTokens (n + 1)
          ⟨List.replicate (n + 1) ' ' ++ c :: rest, true, line, tok⟩ =
          (Token.ofKind Kind.Space line tok ::
            (takeTokens n ⟨List.replicate n ' ' ++ c :: rest, true, line,
              tok + 1⟩).1,
            (takeTokens n ⟨List.replicate n ' ' ++ c :: rest, true, line,
              tok + 1⟩).2) := by
        conv =>
          lhs
          unfold takeTokens
        rw [hnext]
      rw [hstep, ih line (tok + 1) c rest hc hs]
      rw [List.range_succ_eq_map, List.map_cons, List.map_map]
      have hmap : List.map
          (fun i => Token.ofKind Kind.Space line (tok + 1 + i))
          (List.range n) =
          List.map
            ((fun i => Token.ofKind Kind.Space line (tok + i)) ∘ Nat.succ)
            (List.range n) := by
        apply List.map_congr_left
        intro i hi
        exact congrArg (Token.ofKind Kind.Space line) (by omega)
      simp only [Prod.mk.injEq]
      refine ⟨by rw [hmap]; rfl, by
        rw [show tok + 1 + n = tok + (n + 1) from by omega]⟩

/-- C10 witness: three spaces before the character b produce three Space
tokens with token indices 1, 2, 3. -/
theorem interior_spaces_not_collapsed_witness :
    takeTokens 3 ⟨List.replicate 3 ' ' ++ ['b'], true, 1, 1⟩ =
      ((List.range 3).map (fun i => Token.ofKind Kind.Space 1 (1 + i)),
        ⟨['b'], true, 1, 1 + 3⟩) :=
  interior_spaces_not_collapsed.2 3 1 1 'b' [] (by decide) (by decide)

end VPLC
